import Mathlib

/-!
# AEAD binding layer of node-sodium: shallow embedding

This file embeds the AEAD orchestration layer of `src/crypto_aead.cc`
(the node-sodium binding over the libsodium primitives) and proves the
spec-level properties of that layer.

The layer validates buffer lengths against a per-algorithm parameter
table, allocates output buffers, delegates the cryptographic transform
to the external primitive collaborator (libsodium), and maps failures to
a typed taxonomy.  Byte buffers are `List Nat`; the external primitive
is an abstract `Primitive` structure, with the collaborator contract of
spec section 6 captured by `PrimitiveOK`.

In the source, a length-validation failure throws a JavaScript argument
error (the `ARG_TO_UCHAR_BUFFER_LEN` macro or the explicit ciphertext
length check), mapped here to `AeadError.InvalidLength`; a nonzero
return code from the primitive makes the binding return `undefined`,
mapped to `AeadError.AuthenticationFailed` on decrypt paths and
`AeadError.EncryptionFailed` on encrypt paths.
-/

set_option maxRecDepth 8192

namespace NodeSodium

/-- Byte sequences (contents of a JavaScript `Buffer`). -/
abbrev Bytes := List Nat

/-- Typed failure taxonomy of the AEAD layer (spec section 7). -/
inductive AeadError where
  | InvalidLength
  | AuthenticationFailed
  | EncryptionFailed
  | UnsupportedAlgorithm
deriving DecidableEq, Repr

/-- Per-algorithm parameter table (spec section 3): the source's
`crypto_aead_*_KEYBYTES`, `crypto_aead_*_NPUBBYTES`, `crypto_aead_*_ABYTES`
constants and the `crypto_aead_*_statebytes()` size of the precomputed
state. -/
structure AlgorithmProfile where
  key_len : Nat
  nonce_len : Nat
  tag_len : Nat
  state_len : Nat
deriving DecidableEq, Repr

/-- The external cryptographic primitive collaborator (libsodium), as the
binding layer consumes it: key-schedule expansion (`*_beforenm`), combined
and detached AEAD transforms, and the hardware capability probe backing
`crypto_aead_aes256gcm_is_available`.  The transforms are `Option`-valued:
`none` models a nonzero C return code.  Argument order for the transforms is
state, nonce, message/ciphertext, (tag for detached decrypt,) associated
data; associated data is optional (`NULL` pointer at the C boundary). -/
structure Primitive (P : AlgorithmProfile) where
  derive_context : Bytes → Bytes
  enc_combined : Bytes → Bytes → Bytes → Option Bytes → Option Bytes
  enc_detached : Bytes → Bytes → Bytes → Option Bytes → Option (Bytes × Bytes)
  dec_combined : Bytes → Bytes → Bytes → Option Bytes → Option Bytes
  dec_detached : Bytes → Bytes → Bytes → Bytes → Option Bytes → Option Bytes
  hw_available : Bool

/-- Embeds `crypto_aead_aes256gcm_is_available` (crypto_aead.cc lines 129-138):
returns `true` iff the primitive's capability probe returned 1. -/
def crypto_aead_is_available (P : AlgorithmProfile) (prim : Primitive P) :
    Bool :=
  prim.hw_available

/-- Embeds `crypto_aead_aes256gcm_beforenm` (crypto_aead.cc lines 160-174): validates
`len(key) == KEYBYTES` via `ARG_TO_UCHAR_BUFFER_LEN` (a mismatch throws,
mapped to `InvalidLength`), allocates a `statebytes()`-sized buffer and fills
it through the primitive's key expansion.  The libsodium expansion "always
returns 0" (source comment, line 147), so it is modelled as total. -/
def crypto_aead_beforenm (P : AlgorithmProfile) (prim : Primitive P)
    (key : Bytes) : Except AeadError Bytes :=
  if key.length = P.key_len then .ok (prim.derive_context key)
  else .error .InvalidLength

/-- Embeds `crypto_aead_aes256gcm_encrypt_afternm` (crypto_aead.cc lines 198-215):
message of any length, optional associated data, exact-length nonce and
state; allocates `ABYTES + m_size` bytes, zeroes them, and delegates the
combined transform; nonzero primitive return becomes `undefined`
(`EncryptionFailed`). -/
def crypto_aead_encrypt_afternm (P : AlgorithmProfile) (prim : Primitive P)
    (m : Bytes) (ad : Option Bytes) (npub ctx : Bytes) :
    Except AeadError Bytes :=
  if npub.length ≠ P.nonce_len then .error .InvalidLength
  else if ctx.length ≠ P.state_len then .error .InvalidLength
  else match prim.enc_combined ctx npub m ad with
    | some c => .ok c
    | none => .error .EncryptionFailed

/-- Embeds `crypto_aead_aes256gcm_decrypt_afternm` (crypto_aead.cc lines 238-261):
first checks `c_size >= ABYTES` (lines 243-248, throwing otherwise before
any other work), then validates associated data (optional), nonce and state,
allocates `c_size - ABYTES` bytes for the plaintext and delegates the
combined decrypt; nonzero primitive return becomes `undefined`
(`AuthenticationFailed`), and the allocated plaintext buffer is not
returned in that case. -/
def crypto_aead_decrypt_afternm (P : AlgorithmProfile) (prim : Primitive P)
    (c : Bytes) (ad : Option Bytes) (npub ctx : Bytes) :
    Except AeadError Bytes :=
  if c.length < P.tag_len then .error .InvalidLength
  else if npub.length ≠ P.nonce_len then .error .InvalidLength
  else if ctx.length ≠ P.state_len then .error .InvalidLength
  else match prim.dec_combined ctx npub c ad with
    | some m => .ok m
    | none => .error .AuthenticationFailed

/-- Embeds `crypto_aead_aes256gcm_encrypt_detached_afternm` (crypto_aead.cc lines
315-335): same validation as the combined variant; allocates separate
`m_size`-byte ciphertext and `ABYTES`-byte mac buffers (without zeroing
them) and delegates the detached transform, returning the
`{cipherText, mac}` pair on success. -/
def crypto_aead_encrypt_detached_afternm (P : AlgorithmProfile)
    (prim : Primitive P) (m : Bytes) (ad : Option Bytes) (npub ctx : Bytes) :
    Except AeadError (Bytes × Bytes) :=
  if npub.length ≠ P.nonce_len then .error .InvalidLength
  else if ctx.length ≠ P.state_len then .error .InvalidLength
  else match prim.enc_detached ctx npub m ad with
    | some ct => .ok ct
    | none => .error .EncryptionFailed

/-- Embeds `crypto_aead_aes256gcm_decrypt_detached_afternm` (crypto_aead.cc lines
361-378): ciphertext of any length, then the mac argument is validated by
`ARG_TO_UCHAR_BUFFER_LEN(mac, ABYTES)` — exact length, and a missing (null)
mac is likewise rejected since the macro requires a buffer (macro semantics
from node_sodium.h, which is outside src/, modelled from the spec: "tag
length is validated exactly equal to profile.tag_len").  Then optional
associated data, exact-length nonce and state, and the detached decrypt is
delegated. -/
def crypto_aead_decrypt_detached_afternm (P : AlgorithmProfile)
    (prim : Primitive P) (c : Bytes) (mac : Option Bytes)
    (ad : Option Bytes) (npub ctx : Bytes) : Except AeadError Bytes :=
  match mac with
  | none => .error .InvalidLength
  | some t =>
    if t.length ≠ P.tag_len then .error .InvalidLength
    else if npub.length ≠ P.nonce_len then .error .InvalidLength
    else if ctx.length ≠ P.state_len then .error .InvalidLength
    else match prim.dec_detached ctx npub c t ad with
      | some m => .ok m
      | none => .error .AuthenticationFailed

/-- Modelled from the spec: the key-based combined encrypt entry point
(`crypto_aead_aes256gcm_encrypt` and its per-algorithm siblings) is generated
by the `CRYPTO_AEAD_DEF` macro (crypto_aead.cc line 447) whose definition
lives in crypto_aead.h, not under src/.  Per spec sections 4.5 and 6 it
validates the nonce and `len(key) == key_len` and delegates to the
primitive, whose only encrypt entry takes an expanded state
(`aead_encrypt(state, nonce, msg, ad)`), so the key path derives the
state from the key first. -/
def crypto_aead_encrypt (P : AlgorithmProfile) (prim : Primitive P)
    (m : Bytes) (ad : Option Bytes) (npub key : Bytes) :
    Except AeadError Bytes :=
  if npub.length ≠ P.nonce_len then .error .InvalidLength
  else if key.length ≠ P.key_len then .error .InvalidLength
  else match prim.enc_combined (prim.derive_context key) npub m ad with
    | some c => .ok c
    | none => .error .EncryptionFailed

/-- Modelled from the spec: the key-based combined decrypt entry point
(`CRYPTO_AEAD_DEF`, crypto_aead.cc line 447; macro body in crypto_aead.h,
not under src/).  Per spec section 4.3 it first checks
`len(ciphertext) >= tag_len`, then validates nonce and key lengths, and
delegates the combined decrypt on the state derived from the key. -/
def crypto_aead_decrypt (P : AlgorithmProfile) (prim : Primitive P)
    (c : Bytes) (ad : Option Bytes) (npub key : Bytes) :
    Except AeadError Bytes :=
  if c.length < P.tag_len then .error .InvalidLength
  else if npub.length ≠ P.nonce_len then .error .InvalidLength
  else if key.length ≠ P.key_len then .error .InvalidLength
  else match prim.dec_combined (prim.derive_context key) npub c ad with
    | some m => .ok m
    | none => .error .AuthenticationFailed

/-- Modelled from the spec: the key-based detached encrypt entry point
(`CRYPTO_AEAD_DETACHED_DEF`, crypto_aead.cc line 519; macro body in
crypto_aead.h, not under src/), spec section 4.4/4.5. -/
def crypto_aead_encrypt_detached (P : AlgorithmProfile) (prim : Primitive P)
    (m : Bytes) (ad : Option Bytes) (npub key : Bytes) :
    Except AeadError (Bytes × Bytes) :=
  if npub.length ≠ P.nonce_len then .error .InvalidLength
  else if key.length ≠ P.key_len then .error .InvalidLength
  else match prim.enc_detached (prim.derive_context key) npub m ad with
    | some ct => .ok ct
    | none => .error .EncryptionFailed

/-- Modelled from the spec: the key-based detached decrypt entry point
(`CRYPTO_AEAD_DETACHED_DEF`, crypto_aead.cc line 519; macro body in
crypto_aead.h, not under src/), spec section 4.4: mac validated exactly
equal to `tag_len`, missing mac rejected, then nonce and key lengths. -/
def crypto_aead_decrypt_detached (P : AlgorithmProfile) (prim : Primitive P)
    (c : Bytes) (mac : Option Bytes) (ad : Option Bytes) (npub key : Bytes) :
    Except AeadError Bytes :=
  match mac with
  | none => .error .InvalidLength
  | some t =>
    if t.length ≠ P.tag_len then .error .InvalidLength
    else if npub.length ≠ P.nonce_len then .error .InvalidLength
    else if key.length ≠ P.key_len then .error .InvalidLength
    else match prim.dec_detached (prim.derive_context key) npub c t ad with
      | some m => .ok m
      | none => .error .AuthenticationFailed

/-- Control-flow mirror of `crypto_aead_decrypt_afternm`: `true` iff the
call reaches the primitive invocation at crypto_aead.cc line 256, i.e. iff
every validation before it passes.  (Associated data carries no length
check: `ARG_TO_UCHAR_BUFFER_OR_NULL`.) -/
def decrypt_afternm_invokes (P : AlgorithmProfile) (c npub ctx : Bytes) :
    Bool :=
  !(c.length < P.tag_len) && (npub.length == P.nonce_len) &&
    (ctx.length == P.state_len)

/-- Control-flow mirror of `crypto_aead_decrypt_detached_afternm`: `true`
iff the call reaches the primitive invocation at crypto_aead.cc line 373. -/
def decrypt_detached_afternm_invokes (P : AlgorithmProfile)
    (mac : Option Bytes) (npub ctx : Bytes) : Bool :=
  match mac with
  | none => false
  | some t =>
    (t.length == P.tag_len) && (npub.length == P.nonce_len) &&
      (ctx.length == P.state_len)

/-- Control-flow mirror of `crypto_aead_encrypt_afternm`: `true` iff the
call reaches the primitive invocation at crypto_aead.cc line 211.  Note
that it does not depend on the capability probe: the source performs no
availability check on this path. -/
def encrypt_afternm_invokes (P : AlgorithmProfile) (npub ctx : Bytes) :
    Bool :=
  (npub.length == P.nonce_len) && (ctx.length == P.state_len)

/-- A freshly allocated output buffer (`NEW_BUFFER_AND_PTR`, macro from
node_sodium.h outside src/; modelled from the spec's description of
uninitialized allocation): `size` bytes whose initial contents are the
arbitrary pre-existing memory `junk`. -/
def newBuffer (size : Nat) (junk : Nat → Nat) : Bytes :=
  (List.range size).map junk

/-- Embeds `sodium_memzero` applied to a whole buffer. -/
def sodium_memzero (b : Bytes) : Bytes :=
  List.replicate b.length 0

/-- Contents of the combined-mode encrypt output buffer `c` at the moment
the primitive transform is invoked (crypto_aead.cc lines 207-208): the
buffer is allocated with `ABYTES + m_size` bytes and then zeroed with
`sodium_memzero` before the transform runs. -/
def combined_enc_out_before_transform (P : AlgorithmProfile) (m : Bytes)
    (junk : Nat → Nat) : Bytes :=
  sodium_memzero (newBuffer (P.tag_len + m.length) junk)

/-- Contents of the detached-mode encrypt output buffers `(c, mac)` at the
moment the primitive transform is invoked (crypto_aead.cc lines 324-327):
both are freshly allocated and passed to the transform with no
`sodium_memzero`. -/
def detached_enc_out_before_transform (P : AlgorithmProfile) (m : Bytes)
    (junkc junkmac : Nat → Nat) : Bytes × Bytes :=
  (newBuffer m.length junkc, newBuffer P.tag_len junkmac)

/-- The collaborator contract the binding layer assumes of the external
primitive (spec section 6): key expansion produces exactly `state_len`
bytes; detached encryption produces a `len(msg)`-byte ciphertext and a
`tag_len`-byte tag; the combined output is `ciphertext ++ tag`; encryption
succeeds on well-formed state and nonce; successful decryption returns
exactly `len(ct) - tag_len` (combined) or `len(ct)` (detached) bytes; and
decryption inverts encryption under the same state, nonce and associated
data. -/
structure PrimitiveOK (P : AlgorithmProfile) (prim : Primitive P) : Prop where
  derive_len : ∀ k, (prim.derive_context k).length = P.state_len
  enc_detached_len : ∀ st n m ad c t,
      prim.enc_detached st n m ad = some (c, t) →
      c.length = m.length ∧ t.length = P.tag_len
  enc_combined_eq : ∀ st n m ad,
      prim.enc_combined st n m ad =
        (prim.enc_detached st n m ad).map (fun ct => ct.1 ++ ct.2)
  enc_detached_total : ∀ st n m ad, st.length = P.state_len →
      n.length = P.nonce_len → ∃ ct, prim.enc_detached st n m ad = some ct
  dec_combined_len : ∀ st n c ad m,
      prim.dec_combined st n c ad = some m → m.length + P.tag_len = c.length
  dec_detached_len : ∀ st n c t ad m,
      prim.dec_detached st n c t ad = some m → m.length = c.length
  dec_of_enc_combined : ∀ st n m ad comb, st.length = P.state_len →
      n.length = P.nonce_len → prim.enc_combined st n m ad = some comb →
      prim.dec_combined st n comb ad = some m
  dec_of_enc_detached : ∀ st n m ad c t, st.length = P.state_len →
      n.length = P.nonce_len → prim.enc_detached st n m ad = some (c, t) →
      prim.dec_detached st n c t ad = some m

/-- The AES-256-GCM parameter set (spec section 3; libsodium constants
`KEYBYTES = 32`, `NPUBBYTES = 12`, `ABYTES = 16`,
`crypto_aead_aes256gcm_statebytes() = 512`). -/
def aes256gcm : AlgorithmProfile :=
  { key_len := 32, nonce_len := 12, tag_len := 16, state_len := 512 }

/-- A concrete test double for the external primitive at any profile,
used to exercise the layer on closed inputs: the "ciphertext" is the
message itself and the "tag" is `tag_len` bytes of 7; decryption checks
the trailing tag bytes and strips them.  `avail` stubs the capability
probe. -/
def mkPrim (P : AlgorithmProfile) (avail : Bool) : Primitive P where
  derive_context _ := List.replicate P.state_len 0
  enc_combined _ _ m _ := some (m ++ List.replicate P.tag_len 7)
  enc_detached _ _ m _ := some (m, List.replicate P.tag_len 7)
  dec_combined _ _ c _ :=
    if P.tag_len ≤ c.length ∧
        c.drop (c.length - P.tag_len) = List.replicate P.tag_len 7 then
      some (c.take (c.length - P.tag_len))
    else none
  dec_detached _ _ c t _ :=
    if t = List.replicate P.tag_len 7 then some c else none
  hw_available := avail

theorem mkPrim_ok (P : AlgorithmProfile) (avail : Bool) :
    PrimitiveOK P (mkPrim P avail) := by
  constructor
  · intro k
    simp [mkPrim]
  · intro st n m ad c t h
    simp only [mkPrim, Option.some_inj] at h
    obtain ⟨hc, ht⟩ := Prod.mk.injEq .. ▸ h
    subst hc ht
    simp
  · intro st n m ad
    rfl
  · intro st n m ad _ _
    exact ⟨_, rfl⟩
  · intro st n c ad m h
    simp only [mkPrim] at h
    split at h
    · rename_i hcond
      simp only [Option.some_inj] at h
      subst h
      simp only [List.length_take]
      omega
    · exact absurd h (by simp)
  · intro st n c t ad m h
    simp only [mkPrim] at h
    split at h
    · simp only [Option.some_inj] at h
      subst h
      rfl
    · exact absurd h (by simp)
  · intro st n m ad comb _ _ h
    simp only [mkPrim, Option.some_inj] at h
    subst h
    have hlen : (m ++ List.replicate P.tag_len 7).length =
        m.length + P.tag_len := by simp
    have hcond : P.tag_len ≤ (m ++ List.replicate P.tag_len 7).length ∧
        (m ++ List.replicate P.tag_len 7).drop
            ((m ++ List.replicate P.tag_len 7).length - P.tag_len) =
          List.replicate P.tag_len 7 := by
      constructor
      · omega
      · have : (m ++ List.replicate P.tag_len 7).length - P.tag_len =
            m.length := by omega
        rw [this]
        have := List.drop_left m (List.replicate P.tag_len 7)
        exact this
    simp only [mkPrim, hcond, if_pos]
    have harith : (m ++ List.replicate P.tag_len 7).length - P.tag_len =
        m.length := by omega
    rw [harith]
    rw [List.take_left]
    simp
  · intro st n m ad c t _ _ h
    simp only [mkPrim, Option.some_inj] at h
    obtain ⟨hc, ht⟩ := Prod.mk.injEq .. ▸ h
    subst hc ht
    simp [mkPrim]

/-- A successful combined encrypt (context path) implies the validations
passed and the primitive produced the returned buffer. -/
theorem encrypt_afternm_ok_elim (P : AlgorithmProfile) (prim : Primitive P)
    (m : Bytes) (ad : Option Bytes) (npub ctx comb : Bytes)
    (h : crypto_aead_encrypt_afternm P prim m ad npub ctx = .ok comb) :
    npub.length = P.nonce_len ∧ ctx.length = P.state_len ∧
      prim.enc_combined ctx npub m ad = some comb := by
  unfold crypto_aead_encrypt_afternm at h
  by_cases h1 : npub.length ≠ P.nonce_len
  · rw [if_pos h1] at h
    exact Except.noConfusion h
  rw [if_neg h1] at h
  by_cases h2 : ctx.length ≠ P.state_len
  · rw [if_pos h2] at h
    exact Except.noConfusion h
  rw [if_neg h2] at h
  cases hce : prim.enc_combined ctx npub m ad with
  | none =>
    rw [hce] at h
    exact Except.noConfusion h
  | some x =>
    rw [hce] at h
    simp only [Except.ok.injEq] at h
    exact ⟨not_ne_iff.mp h1, not_ne_iff.mp h2, by rw [h]⟩

/-- A successful combined encrypt (key path) implies the validations passed
and the primitive produced the returned buffer on the derived state. -/
theorem encrypt_key_ok_elim (P : AlgorithmProfile) (prim : Primitive P)
    (m : Bytes) (ad : Option Bytes) (npub key comb : Bytes)
    (h : crypto_aead_encrypt P prim m ad npub key = .ok comb) :
    npub.length = P.nonce_len ∧ key.length = P.key_len ∧
      prim.enc_combined (prim.derive_context key) npub m ad = some comb := by
  unfold crypto_aead_encrypt at h
  by_cases h1 : npub.length ≠ P.nonce_len
  · rw [if_pos h1] at h
    exact Except.noConfusion h
  rw [if_neg h1] at h
  by_cases h2 : key.length ≠ P.key_len
  · rw [if_pos h2] at h
    exact Except.noConfusion h
  rw [if_neg h2] at h
  cases hce : prim.enc_combined (prim.derive_context key) npub m ad with
  | none =>
    rw [hce] at h
    exact Except.noConfusion h
  | some x =>
    rw [hce] at h
    simp only [Except.ok.injEq] at h
    exact ⟨not_ne_iff.mp h1, not_ne_iff.mp h2, by rw [h]⟩

/-- A successful combined decrypt (context path) implies the validations
passed and the primitive authenticated and produced the returned bytes. -/
theorem decrypt_afternm_ok_elim (P : AlgorithmProfile) (prim : Primitive P)
    (c : Bytes) (ad : Option Bytes) (npub ctx pt : Bytes)
    (h : crypto_aead_decrypt_afternm P prim c ad npub ctx = .ok pt) :
    ¬ c.length < P.tag_len ∧ npub.length = P.nonce_len ∧
      ctx.length = P.state_len ∧
      prim.dec_combined ctx npub c ad = some pt := by
  unfold crypto_aead_decrypt_afternm at h
  by_cases h1 : c.length < P.tag_len
  · rw [if_pos h1] at h
    exact Except.noConfusion h
  rw [if_neg h1] at h
  by_cases h2 : npub.length ≠ P.nonce_len
  · rw [if_pos h2] at h
    exact Except.noConfusion h
  rw [if_neg h2] at h
  by_cases h3 : ctx.length ≠ P.state_len
  · rw [if_pos h3] at h
    exact Except.noConfusion h
  rw [if_neg h3] at h
  cases hdc : prim.dec_combined ctx npub c ad with
  | none =>
    rw [hdc] at h
    exact Except.noConfusion h
  | some x =>
    rw [hdc] at h
    simp only [Except.ok.injEq] at h
    exact ⟨h1, not_ne_iff.mp h2, not_ne_iff.mp h3, by rw [h]⟩

/-- A successful combined decrypt (key path) implies the validations passed
and the primitive authenticated on the derived state. -/
theorem decrypt_key_ok_elim (P : AlgorithmProfile) (prim : Primitive P)
    (c : Bytes) (ad : Option Bytes) (npub key pt : Bytes)
    (h : crypto_aead_decrypt P prim c ad npub key = .ok pt) :
    ¬ c.length < P.tag_len ∧ npub.length = P.nonce_len ∧
      key.length = P.key_len ∧
      prim.dec_combined (prim.derive_context key) npub c ad = some pt := by
  unfold crypto_aead_decrypt at h
  by_cases h1 : c.length < P.tag_len
  · rw [if_pos h1] at h
    exact Except.noConfusion h
  rw [if_neg h1] at h
  by_cases h2 : npub.length ≠ P.nonce_len
  · rw [if_pos h2] at h
    exact Except.noConfusion h
  rw [if_neg h2] at h
  by_cases h3 : key.length ≠ P.key_len
  · rw [if_pos h3] at h
    exact Except.noConfusion h
  rw [if_neg h3] at h
  cases hdc : prim.dec_combined (prim.derive_context key) npub c ad with
  | none =>
    rw [hdc] at h
    exact Except.noConfusion h
  | some x =>
    rw [hdc] at h
    simp only [Except.ok.injEq] at h
    exact ⟨h1, not_ne_iff.mp h2, not_ne_iff.mp h3, by rw [h]⟩

/-- Under the collaborator contract, a successful combined primitive
encryption decomposes as detached ciphertext plus appended tag, with the
documented lengths. -/
theorem enc_combined_decomposition (P : AlgorithmProfile)
    (prim : Primitive P) (hok : PrimitiveOK P prim)
    (st npub m : Bytes) (ad : Option Bytes) (comb : Bytes)
    (h : prim.enc_combined st npub m ad = some comb) :
    comb.length = m.length + P.tag_len ∧
      ∃ ct t, prim.enc_detached st npub m ad = some (ct, t) ∧
        comb = ct ++ t ∧ ct.length = m.length ∧ t.length = P.tag_len ∧
        comb.drop m.length = t := by
  have hmap := hok.enc_combined_eq st npub m ad
  rw [h] at hmap
  cases hde : prim.enc_detached st npub m ad with
  | none =>
    rw [hde] at hmap
    exact absurd hmap (by simp)
  | some ct =>
    obtain ⟨cbody, t⟩ := ct
    rw [hde] at hmap
    simp only [Option.map_some', Option.some_inj] at hmap
    obtain ⟨hcl, htl⟩ := hok.enc_detached_len st npub m ad cbody t hde
    subst hmap
    refine ⟨by simp [hcl, htl], cbody, t, rfl, rfl, hcl, htl, ?_⟩
    rw [← hcl, List.drop_left]

/-- A minimal parameter set used to exercise the layer on closed inputs. -/
def toyP : AlgorithmProfile :=
  { key_len := 1, nonce_len := 1, tag_len := 1, state_len := 1 }

/-- C1: whenever the primitive's tag verification fails on a combined
decrypt (context- or key-based entry, any ciphertext, nonce and optional
associated data), the layer returns `AuthenticationFailed` and never a
plaintext: the caller cannot observe any plaintext bytes, partial or
otherwise. -/
theorem combined_decrypt_auth_failure_all_or_nothing
    (P : AlgorithmProfile) (prim : Primitive P) (c : Bytes)
    (ad : Option Bytes) (npub : Bytes) :
    (∀ ctx, prim.dec_combined ctx npub c ad = none →
      (∀ pt, crypto_aead_decrypt_afternm P prim c ad npub ctx ≠ .ok pt) ∧
      (¬ c.length < P.tag_len → npub.length = P.nonce_len →
        ctx.length = P.state_len →
        crypto_aead_decrypt_afternm P prim c ad npub ctx =
          .error .AuthenticationFailed)) ∧
    (∀ key, prim.dec_combined (prim.derive_context key) npub c ad = none →
      (∀ pt, crypto_aead_decrypt P prim c ad npub key ≠ .ok pt) ∧
      (¬ c.length < P.tag_len → npub.length = P.nonce_len →
        key.length = P.key_len →
        crypto_aead_decrypt P prim c ad npub key =
          .error .AuthenticationFailed)) := by
  constructor
  · intro ctx h
    constructor
    · intro pt hcontra
      have := (decrypt_afternm_ok_elim P prim c ad npub ctx pt hcontra).2.2.2
      rw [h] at this
      exact Option.noConfusion this
    · intro h1 h2 h3
      unfold crypto_aead_decrypt_afternm
      rw [if_neg h1, if_neg (not_ne_iff.mpr h2), if_neg (not_ne_iff.mpr h3),
        h]
  · intro key h
    constructor
    · intro pt hcontra
      have := (decrypt_key_ok_elim P prim c ad npub key pt hcontra).2.2.2
      rw [h] at this
      exact Option.noConfusion this
    · intro h1 h2 h3
      unfold crypto_aead_decrypt
      rw [if_neg h1, if_neg (not_ne_iff.mpr h2), if_neg (not_ne_iff.mpr h3),
        h]

theorem combined_decrypt_auth_failure_all_or_nothing_witness :
    ((mkPrim toyP true).dec_combined [0] [2] [0] none = none ∧
      (mkPrim toyP true).dec_combined
        ((mkPrim toyP true).derive_context [3]) [2] [0] none = none) ∧
    ((∀ pt, crypto_aead_decrypt_afternm toyP (mkPrim toyP true) [0] none
        [2] [0] ≠ .ok pt) ∧
      crypto_aead_decrypt_afternm toyP (mkPrim toyP true) [0] none [2] [0] =
        .error .AuthenticationFailed) ∧
    ((∀ pt, crypto_aead_decrypt toyP (mkPrim toyP true) [0] none
        [2] [3] ≠ .ok pt) ∧
      crypto_aead_decrypt toyP (mkPrim toyP true) [0] none [2] [3] =
        .error .AuthenticationFailed) := by
  refine ⟨⟨rfl, rfl⟩, ?_, ?_⟩
  · have h := (combined_decrypt_auth_failure_all_or_nothing toyP
      (mkPrim toyP true) [0] none [2]).1 [0] rfl
    exact ⟨h.1, h.2 (by decide) (by decide) (by decide)⟩
  · have h := (combined_decrypt_auth_failure_all_or_nothing toyP
      (mkPrim toyP true) [0] none [2]).2 [3] rfl
    exact ⟨h.1, h.2 (by decide) (by decide) (by decide)⟩

/-- C6: on success, combined encrypt (context- or key-based) returns a
single buffer of length `len(message) + tag_len` laid out as
`ciphertext || tag`: the primitive's detached ciphertext followed by its
`tag_len`-byte authentication tag, the tag occupying the final `tag_len`
bytes. -/
theorem combined_encrypt_layout (P : AlgorithmProfile) (prim : Primitive P)
    (hok : PrimitiveOK P prim) (m : Bytes) (ad : Option Bytes)
    (npub : Bytes) :
    (∀ ctx comb,
      crypto_aead_encrypt_afternm P prim m ad npub ctx = .ok comb →
      comb.length = m.length + P.tag_len ∧
        ∃ ct t, prim.enc_detached ctx npub m ad = some (ct, t) ∧
          comb = ct ++ t ∧ ct.length = m.length ∧ t.length = P.tag_len ∧
          comb.drop m.length = t) ∧
    (∀ key comb, crypto_aead_encrypt P prim m ad npub key = .ok comb →
      comb.length = m.length + P.tag_len ∧
        ∃ ct t, prim.enc_detached (prim.derive_context key) npub m ad =
            some (ct, t) ∧
          comb = ct ++ t ∧ ct.length = m.length ∧ t.length = P.tag_len ∧
          comb.drop m.length = t) := by
  constructor
  · intro ctx comb h
    exact enc_combined_decomposition P prim hok ctx npub m ad comb
      (encrypt_afternm_ok_elim P prim m ad npub ctx comb h).2.2
  · intro key comb h
    exact enc_combined_decomposition P prim hok (prim.derive_context key)
      npub m ad comb (encrypt_key_ok_elim P prim m ad npub key comb h).2.2

theorem combined_encrypt_layout_witness :
    (PrimitiveOK toyP (mkPrim toyP true) ∧
      crypto_aead_encrypt_afternm toyP (mkPrim toyP true) [5] none [2] [0] =
        .ok [5, 7] ∧
      crypto_aead_encrypt toyP (mkPrim toyP true) [5] none [2] [3] =
        .ok [5, 7]) ∧
    (([5, 7] : Bytes).length = ([5] : Bytes).length + toyP.tag_len ∧
      ∃ ct t, (mkPrim toyP true).enc_detached [0] [2] [5] none =
          some (ct, t) ∧
        [5, 7] = ct ++ t ∧ ct.length = ([5] : Bytes).length ∧
        t.length = toyP.tag_len ∧
        ([5, 7] : Bytes).drop ([5] : Bytes).length = t) ∧
    (([5, 7] : Bytes).length = ([5] : Bytes).length + toyP.tag_len ∧
      ∃ ct t, (mkPrim toyP true).enc_detached
          ((mkPrim toyP true).derive_context [3]) [2] [5] none =
          some (ct, t) ∧
        [5, 7] = ct ++ t ∧ ct.length = ([5] : Bytes).length ∧
        t.length = toyP.tag_len ∧
        ([5, 7] : Bytes).drop ([5] : Bytes).length = t) :=
  ⟨⟨mkPrim_ok toyP true, rfl, rfl⟩,
    (combined_encrypt_layout toyP (mkPrim toyP true) (mkPrim_ok toyP true)
      [5] none [2]).1 [0] [5, 7] rfl,
    (combined_encrypt_layout toyP (mkPrim toyP true) (mkPrim_ok toyP true)
      [5] none [2]).2 [3] [5, 7] rfl⟩

/-- C7: on success, combined decrypt (context- or key-based) returns a
plaintext of length exactly `len(ciphertext) - tag_len`. -/
theorem combined_decrypt_output_length (P : AlgorithmProfile)
    (prim : Primitive P) (hok : PrimitiveOK P prim) (c : Bytes)
    (ad : Option Bytes) (npub : Bytes) :
    (∀ ctx pt, crypto_aead_decrypt_afternm P prim c ad npub ctx = .ok pt →
      pt.length = c.length - P.tag_len) ∧
    (∀ key pt, crypto_aead_decrypt P prim c ad npub key = .ok pt →
      pt.length = c.length - P.tag_len) := by
  constructor
  · intro ctx pt h
    have hdc := (decrypt_afternm_ok_elim P prim c ad npub ctx pt h).2.2.2
    have := hok.dec_combined_len ctx npub c ad pt hdc
    omega
  · intro key pt h
    have hdc := (decrypt_key_ok_elim P prim c ad npub key pt h).2.2.2
    have := hok.dec_combined_len (prim.derive_context key) npub c ad pt hdc
    omega

theorem combined_decrypt_output_length_witness :
    (PrimitiveOK toyP (mkPrim toyP true) ∧
      crypto_aead_decrypt_afternm toyP (mkPrim toyP true) [5, 7] none
        [2] [0] = .ok [5] ∧
      crypto_aead_decrypt toyP (mkPrim toyP true) [5, 7] none [2] [3] =
        .ok [5]) ∧
    ([5] : Bytes).length = ([5, 7] : Bytes).length - toyP.tag_len ∧
    ([5] : Bytes).length = ([5, 7] : Bytes).length - toyP.tag_len :=
  ⟨⟨mkPrim_ok toyP true, rfl, rfl⟩,
    (combined_decrypt_output_length toyP (mkPrim toyP true)
      (mkPrim_ok toyP true) [5, 7] none [2]).1 [0] [5] rfl,
    (combined_decrypt_output_length toyP (mkPrim toyP true)
      (mkPrim_ok toyP true) [5, 7] none [2]).2 [3] [5] rfl⟩

/-- C2: for every algorithm profile, every mode (combined and detached,
key-based and context-based), every message (including zero-length),
every associated data (absent or any bytes), and every nonce and key of
the profile-required lengths, decrypting the output of encrypt with the
same (ad, nonce, key-or-derived-context) succeeds and returns exactly the
message, under the collaborator contract for the external primitive. -/
theorem aead_roundtrip_all_modes (P : AlgorithmProfile) (prim : Primitive P)
    (hok : PrimitiveOK P prim) (m : Bytes) (ad : Option Bytes)
    (npub key : Bytes) (hn : npub.length = P.nonce_len)
    (hk : key.length = P.key_len) :
    (∃ ctx comb, crypto_aead_beforenm P prim key = .ok ctx ∧
      crypto_aead_encrypt_afternm P prim m ad npub ctx = .ok comb ∧
      crypto_aead_decrypt_afternm P prim comb ad npub ctx = .ok m) ∧
    (∃ comb, crypto_aead_encrypt P prim m ad npub key = .ok comb ∧
      crypto_aead_decrypt P prim comb ad npub key = .ok m) ∧
    (∃ ctx ct t, crypto_aead_beforenm P prim key = .ok ctx ∧
      crypto_aead_encrypt_detached_afternm P prim m ad npub ctx =
        .ok (ct, t) ∧
      crypto_aead_decrypt_detached_afternm P prim ct (some t) ad npub ctx =
        .ok m) ∧
    (∃ ct t, crypto_aead_encrypt_detached P prim m ad npub key =
        .ok (ct, t) ∧
      crypto_aead_decrypt_detached P prim ct (some t) ad npub key =
        .ok m) := by
  have hst : (prim.derive_context key).length = P.state_len :=
    hok.derive_len key
  obtain ⟨⟨ct, t⟩, henc⟩ :=
    hok.enc_detached_total (prim.derive_context key) npub m ad hst hn
  obtain ⟨hcl, htl⟩ :=
    hok.enc_detached_len (prim.derive_context key) npub m ad ct t henc
  have hcomb : prim.enc_combined (prim.derive_context key) npub m ad =
      some (ct ++ t) := by
    rw [hok.enc_combined_eq (prim.derive_context key) npub m ad, henc]
    rfl
  have hdec := hok.dec_of_enc_combined (prim.derive_context key) npub m ad
    (ct ++ t) hst hn hcomb
  have hdecd := hok.dec_of_enc_detached (prim.derive_context key) npub m ad
    ct t hst hn henc
  have hlen_comb : (ct ++ t).length = m.length + P.tag_len := by
    simp [hcl, htl]
  have hnotshort : ¬ (ct ++ t).length < P.tag_len := by
    rw [hlen_comb]
    omega
  have hbef : crypto_aead_beforenm P prim key =
      .ok (prim.derive_context key) := by
    unfold crypto_aead_beforenm
    rw [if_pos hk]
  refine ⟨⟨prim.derive_context key, ct ++ t, hbef, ?_, ?_⟩,
    ⟨ct ++ t, ?_, ?_⟩,
    ⟨prim.derive_context key, ct, t, hbef, ?_, ?_⟩,
    ⟨ct, t, ?_, ?_⟩⟩
  · unfold crypto_aead_encrypt_afternm
    rw [if_neg (not_ne_iff.mpr hn), if_neg (not_ne_iff.mpr hst), hcomb]
  · unfold crypto_aead_decrypt_afternm
    rw [if_neg hnotshort, if_neg (not_ne_iff.mpr hn),
      if_neg (not_ne_iff.mpr hst), hdec]
  · unfold crypto_aead_encrypt
    rw [if_neg (not_ne_iff.mpr hn), if_neg (not_ne_iff.mpr hk), hcomb]
  · unfold crypto_aead_decrypt
    rw [if_neg hnotshort, if_neg (not_ne_iff.mpr hn),
      if_neg (not_ne_iff.mpr hk), hdec]
  · unfold crypto_aead_encrypt_detached_afternm
    rw [if_neg (not_ne_iff.mpr hn), if_neg (not_ne_iff.mpr hst), henc]
  · simp only [crypto_aead_decrypt_detached_afternm]
    rw [if_neg (not_ne_iff.mpr htl), if_neg (not_ne_iff.mpr hn),
      if_neg (not_ne_iff.mpr hst), hdecd]
  · unfold crypto_aead_encrypt_detached
    rw [if_neg (not_ne_iff.mpr hn), if_neg (not_ne_iff.mpr hk), henc]
  · simp only [crypto_aead_decrypt_detached]
    rw [if_neg (not_ne_iff.mpr htl), if_neg (not_ne_iff.mpr hn),
      if_neg (not_ne_iff.mpr hk), hdecd]

theorem aead_roundtrip_all_modes_witness :
    (PrimitiveOK toyP (mkPrim toyP true) ∧
      ([2] : Bytes).length = toyP.nonce_len ∧
      ([3] : Bytes).length = toyP.key_len) ∧
    ((∃ ctx comb,
        crypto_aead_beforenm toyP (mkPrim toyP true) [3] = .ok ctx ∧
        crypto_aead_encrypt_afternm toyP (mkPrim toyP true) [5] (some [])
          [2] ctx = .ok comb ∧
        crypto_aead_decrypt_afternm toyP (mkPrim toyP true) comb (some [])
          [2] ctx = .ok [5]) ∧
      (∃ comb, crypto_aead_encrypt toyP (mkPrim toyP true) [5] (some [])
          [2] [3] = .ok comb ∧
        crypto_aead_decrypt toyP (mkPrim toyP true) comb (some []) [2] [3] =
          .ok [5]) ∧
      (∃ ctx ct t,
        crypto_aead_beforenm toyP (mkPrim toyP true) [3] = .ok ctx ∧
        crypto_aead_encrypt_detached_afternm toyP (mkPrim toyP true) [5]
          (some []) [2] ctx = .ok (ct, t) ∧
        crypto_aead_decrypt_detached_afternm toyP (mkPrim toyP true) ct
          (some t) (some []) [2] ctx = .ok [5]) ∧
      (∃ ct t, crypto_aead_encrypt_detached toyP (mkPrim toyP true) [5]
          (some []) [2] [3] = .ok (ct, t) ∧
        crypto_aead_decrypt_detached toyP (mkPrim toyP true) ct (some t)
          (some []) [2] [3] = .ok [5])) :=
  ⟨⟨mkPrim_ok toyP true, rfl, rfl⟩,
    aead_roundtrip_all_modes toyP (mkPrim toyP true) (mkPrim_ok toyP true)
      [5] (some []) [2] [3] rfl rfl⟩

/-- C3: for a fixed (message, associated data, nonce, key) with a key of
valid length, the raw-key combined encrypt entry point and the context
entry point applied to the context built from that key produce
byte-identical results (on every nonce, valid or not), and combined
output produced through the key path is accepted by decryption through
either path, returning the original message. -/
theorem key_context_equivalence (P : AlgorithmProfile) (prim : Primitive P)
    (hok : PrimitiveOK P prim) (m : Bytes) (ad : Option Bytes)
    (npub key : Bytes) (hk : key.length = P.key_len) :
    crypto_aead_beforenm P prim key = .ok (prim.derive_context key) ∧
    crypto_aead_encrypt P prim m ad npub key =
      crypto_aead_encrypt_afternm P prim m ad npub
        (prim.derive_context key) ∧
    (npub.length = P.nonce_len → ∀ comb,
      crypto_aead_encrypt P prim m ad npub key = .ok comb →
      crypto_aead_decrypt_afternm P prim comb ad npub
          (prim.derive_context key) = .ok m ∧
      crypto_aead_decrypt P prim comb ad npub key = .ok m) := by
  have hst : (prim.derive_context key).length = P.state_len :=
    hok.derive_len key
  refine ⟨?_, ?_, ?_⟩
  · unfold crypto_aead_beforenm
    rw [if_pos hk]
  · unfold crypto_aead_encrypt crypto_aead_encrypt_afternm
    by_cases hn' : npub.length ≠ P.nonce_len
    · rw [if_pos hn', if_pos hn']
    · rw [if_neg hn', if_neg hn', if_neg (not_ne_iff.mpr hk),
        if_neg (not_ne_iff.mpr hst)]
  · intro hn comb hcomb
    obtain ⟨-, -, hce⟩ := encrypt_key_ok_elim P prim m ad npub key comb hcomb
    obtain ⟨hlen, -⟩ := enc_combined_decomposition P prim hok
      (prim.derive_context key) npub m ad comb hce
    have hdec := hok.dec_of_enc_combined (prim.derive_context key) npub m ad
      comb hst hn hce
    have hnotshort : ¬ comb.length < P.tag_len := by
      rw [hlen]
      omega
    constructor
    · unfold crypto_aead_decrypt_afternm
      rw [if_neg hnotshort, if_neg (not_ne_iff.mpr hn),
        if_neg (not_ne_iff.mpr hst), hdec]
    · unfold crypto_aead_decrypt
      rw [if_neg hnotshort, if_neg (not_ne_iff.mpr hn),
        if_neg (not_ne_iff.mpr hk), hdec]

theorem key_context_equivalence_witness :
    (PrimitiveOK toyP (mkPrim toyP true) ∧
      ([3] : Bytes).length = toyP.key_len ∧
      ([2] : Bytes).length = toyP.nonce_len ∧
      crypto_aead_encrypt toyP (mkPrim toyP true) [5] none [2] [3] =
        .ok [5, 7]) ∧
    (crypto_aead_beforenm toyP (mkPrim toyP true) [3] =
        .ok ((mkPrim toyP true).derive_context [3]) ∧
      crypto_aead_encrypt toyP (mkPrim toyP true) [5] none [2] [3] =
        crypto_aead_encrypt_afternm toyP (mkPrim toyP true) [5] none [2]
          ((mkPrim toyP true).derive_context [3]) ∧
      (crypto_aead_decrypt_afternm toyP (mkPrim toyP true) [5, 7] none [2]
          ((mkPrim toyP true).derive_context [3]) = .ok [5] ∧
        crypto_aead_decrypt toyP (mkPrim toyP true) [5, 7] none [2] [3] =
          .ok [5])) := by
  have h := key_context_equivalence toyP (mkPrim toyP true)
    (mkPrim_ok toyP true) [5] none [2] [3] rfl
  exact ⟨⟨mkPrim_ok toyP true, rfl, rfl, rfl⟩,
    h.1, h.2.1, h.2.2 rfl [5, 7] rfl⟩

/-- C4: for every ciphertext strictly shorter than `tag_len`, combined
decrypt (context- and key-based) fails with `InvalidLength`, and the
primitive is never invoked on that call (the control flow never reaches
the primitive call site). -/
theorem combined_decrypt_short_ciphertext_invalid_length
    (P : AlgorithmProfile) (prim : Primitive P) (c : Bytes)
    (ad : Option Bytes) (npub : Bytes) (hshort : c.length < P.tag_len) :
    (∀ ctx, crypto_aead_decrypt_afternm P prim c ad npub ctx =
        .error .InvalidLength ∧
      decrypt_afternm_invokes P c npub ctx = false) ∧
    (∀ key, crypto_aead_decrypt P prim c ad npub key =
        .error .InvalidLength) := by
  constructor
  · intro ctx
    constructor
    · unfold crypto_aead_decrypt_afternm
      rw [if_pos hshort]
    · simp [decrypt_afternm_invokes, hshort]
  · intro key
    unfold crypto_aead_decrypt
    rw [if_pos hshort]

theorem combined_decrypt_short_ciphertext_invalid_length_witness :
    (([5, 5] : Bytes).length < toyP.tag_len + 2 ∧ True) ∧
    ((∀ ctx, crypto_aead_decrypt_afternm
          { toyP with tag_len := toyP.tag_len + 2 } (mkPrim _ true)
          [5, 5] none [2] ctx = .error .InvalidLength ∧
        decrypt_afternm_invokes { toyP with tag_len := toyP.tag_len + 2 }
          [5, 5] [2] ctx = false) ∧
      (∀ key, crypto_aead_decrypt { toyP with tag_len := toyP.tag_len + 2 }
          (mkPrim _ true) [5, 5] none [2] key = .error .InvalidLength)) :=
  ⟨⟨by decide, trivial⟩,
    combined_decrypt_short_ciphertext_invalid_length
      { toyP with tag_len := toyP.tag_len + 2 } (mkPrim _ true)
      [5, 5] none [2] (by decide)⟩

/-- C8: detached decrypt validates the supplied tag to have length exactly
`tag_len`; a missing tag, or a tag of any other length, is rejected with
`InvalidLength` and the primitive is never invoked on that call. -/
theorem detached_decrypt_tag_length_exact
    (P : AlgorithmProfile) (prim : Primitive P) (c : Bytes)
    (ad : Option Bytes) (npub ctx : Bytes) :
    (crypto_aead_decrypt_detached_afternm P prim c none ad npub ctx =
        .error .InvalidLength ∧
      decrypt_detached_afternm_invokes P none npub ctx = false) ∧
    (∀ t : Bytes, t.length ≠ P.tag_len →
      crypto_aead_decrypt_detached_afternm P prim c (some t) ad npub ctx =
          .error .InvalidLength ∧
        decrypt_detached_afternm_invokes P (some t) npub ctx = false) := by
  refine ⟨⟨rfl, rfl⟩, fun t ht => ⟨?_, ?_⟩⟩
  · simp [crypto_aead_decrypt_detached_afternm, ht]
  · simp [decrypt_detached_afternm_invokes, ht]

theorem detached_decrypt_tag_length_exact_witness :
    (([8, 8] : Bytes).length ≠ toyP.tag_len ∧
      (crypto_aead_decrypt_detached_afternm toyP (mkPrim toyP true)
          [4] none none [2] [0] = .error .InvalidLength ∧
        decrypt_detached_afternm_invokes toyP none [2] [0] = false)) ∧
    (crypto_aead_decrypt_detached_afternm toyP (mkPrim toyP true)
        [4] (some [8, 8]) none [2] [0] = .error .InvalidLength ∧
      decrypt_detached_afternm_invokes toyP (some [8, 8]) [2] [0] = false) :=
  ⟨⟨by decide,
      (detached_decrypt_tag_length_exact toyP (mkPrim toyP true)
        [4] none [2] [0]).1⟩,
    (detached_decrypt_tag_length_exact toyP (mkPrim toyP true)
        [4] none [2] [0]).2 [8, 8] (by decide)⟩

/-- C9: `beforenm` (build_context) fails with `InvalidLength` exactly when
the key length differs from `key_len`, and on a key of exactly `key_len`
bytes it succeeds with an opaque context of exactly `state_len` bytes. -/
theorem beforenm_key_validation (P : AlgorithmProfile) (prim : Primitive P)
    (hok : PrimitiveOK P prim) (key : Bytes) :
    (crypto_aead_beforenm P prim key = .error .InvalidLength ↔
      key.length ≠ P.key_len) ∧
    (key.length = P.key_len →
      ∃ ctx, crypto_aead_beforenm P prim key = .ok ctx ∧
        ctx.length = P.state_len) := by
  constructor
  · unfold crypto_aead_beforenm
    by_cases hk : key.length = P.key_len
    · rw [if_pos hk]
      simp [hk]
    · rw [if_neg hk]
      simp [hk]
  · intro hk
    refine ⟨prim.derive_context key, ?_, hok.derive_len key⟩
    unfold crypto_aead_beforenm
    rw [if_pos hk]

theorem beforenm_key_validation_witness :
    PrimitiveOK toyP (mkPrim toyP true) ∧
    ([9] : Bytes).length = toyP.key_len ∧
    ((crypto_aead_beforenm toyP (mkPrim toyP true) [9] =
          .error .InvalidLength ↔ ([9] : Bytes).length ≠ toyP.key_len) ∧
      (([9] : Bytes).length = toyP.key_len →
        ∃ ctx, crypto_aead_beforenm toyP (mkPrim toyP true) [9] = .ok ctx ∧
          ctx.length = toyP.state_len)) :=
  ⟨mkPrim_ok toyP true, rfl,
    beforenm_key_validation toyP (mkPrim toyP true) (mkPrim_ok toyP true) [9]⟩

/-- C10: the combined encrypt path zeroes its output buffer before the
primitive transform runs (crypto_aead.cc lines 207-208), so the buffer
contents at transform time are all zero whatever memory the allocation
returned; the detached encrypt path passes its freshly allocated
ciphertext and mac buffers to the transform without zeroing them (lines
324-327), so their contents at transform time can still hold arbitrary
pre-existing memory. -/
theorem encrypt_buffer_initialization_contrast (P : AlgorithmProfile)
    (m : Bytes) (htag : 0 < P.tag_len) :
    (∀ junk : Nat → Nat, combined_enc_out_before_transform P m junk =
      List.replicate (P.tag_len + m.length) 0) ∧
    (∃ junkc junkmac : Nat → Nat,
      (detached_enc_out_before_transform P m junkc junkmac).2 ≠
        List.replicate P.tag_len 0) := by
  constructor
  · intro junk
    simp [combined_enc_out_before_transform, sodium_memzero, newBuffer]
  · refine ⟨fun _ => 1, fun _ => 1, ?_⟩
    have hmac : (detached_enc_out_before_transform P m
        (fun _ => 1) (fun _ => 1)).2 = List.replicate P.tag_len 1 := by
      simp [detached_enc_out_before_transform, newBuffer, List.map_const']
    rw [hmac]
    cases htl : P.tag_len with
    | zero => omega
    | succ n => simp [List.replicate_succ]

theorem encrypt_buffer_initialization_contrast_witness :
    0 < toyP.tag_len ∧
    ((∀ junk : Nat → Nat,
        combined_enc_out_before_transform toyP [3, 4] junk =
          List.replicate (toyP.tag_len + ([3, 4] : Bytes).length) 0) ∧
      (∃ junkc junkmac : Nat → Nat,
        (detached_enc_out_before_transform toyP [3, 4] junkc junkmac).2 ≠
          List.replicate toyP.tag_len 0)) :=
  ⟨by decide, encrypt_buffer_initialization_contrast toyP [3, 4] (by decide)⟩

/-- C5 counterexample: with a stubbed capability probe returning false, the
aes256gcm combined encrypt entry point neither fails with
`UnsupportedAlgorithm` nor is refused before dispatch: the control flow
reaches the primitive call and the call succeeds.  The source performs no
availability check on any encrypt path (crypto_aead.cc lines 198-215);
its own documentation (lines 110-127) instead tells the caller to check
`crypto_aead_aes256gcm_is_available` first. -/
theorem aes256gcm_encrypt_no_availability_gate_cex :
    crypto_aead_is_available aes256gcm (mkPrim aes256gcm false) = false ∧
    encrypt_afternm_invokes aes256gcm (List.replicate 12 0)
      (List.replicate 512 0) = true ∧
    crypto_aead_encrypt_afternm aes256gcm (mkPrim aes256gcm false) [1] none
        (List.replicate 12 0) (List.replicate 512 0) =
      .ok ([1] ++ List.replicate 16 7) ∧
    crypto_aead_encrypt_afternm aes256gcm (mkPrim aes256gcm false) [1] none
        (List.replicate 12 0) (List.replicate 512 0) ≠
      .error .UnsupportedAlgorithm := by
  refine ⟨rfl, by decide, rfl, fun hcontra => ?_⟩
  rw [show crypto_aead_encrypt_afternm aes256gcm (mkPrim aes256gcm false)
      [1] none (List.replicate 12 0) (List.replicate 512 0) =
      .ok ([1] ++ List.replicate 16 7) from rfl] at hcontra
  exact Except.noConfusion hcontra

/-- C5 amended: the layer performs no availability gating.  Whenever the
capability probe reports the algorithm unavailable, an encrypt call with
valid nonce and state lengths still dispatches to the primitive and
returns whatever the primitive produced; it never fails with
`UnsupportedAlgorithm`. -/
theorem aes256gcm_encrypt_ignores_availability (P : AlgorithmProfile)
    (prim : Primitive P) (m : Bytes) (ad : Option Bytes) (npub ctx : Bytes)
    (comb : Bytes) (hn : npub.length = P.nonce_len)
    (hc : ctx.length = P.state_len)
    (hunavail : crypto_aead_is_available P prim = false)
    (henc : prim.enc_combined ctx npub m ad = some comb) :
    crypto_aead_encrypt_afternm P prim m ad npub ctx = .ok comb ∧
    encrypt_afternm_invokes P npub ctx = true ∧
    crypto_aead_encrypt_afternm P prim m ad npub ctx ≠
      .error .UnsupportedAlgorithm := by
  have hok : crypto_aead_encrypt_afternm P prim m ad npub ctx = .ok comb := by
    unfold crypto_aead_encrypt_afternm
    rw [if_neg (not_ne_iff.mpr hn), if_neg (not_ne_iff.mpr hc), henc]
  refine ⟨hok, ?_, fun hcontra => ?_⟩
  · simp [encrypt_afternm_invokes, hn, hc]
  · exact Except.noConfusion (hok.symm.trans hcontra)

theorem aes256gcm_encrypt_ignores_availability_witness :
    ((List.replicate 12 0 : Bytes).length = aes256gcm.nonce_len ∧
      (List.replicate 512 0 : Bytes).length = aes256gcm.state_len ∧
      crypto_aead_is_available aes256gcm (mkPrim aes256gcm false) = false ∧
      (mkPrim aes256gcm false).enc_combined (List.replicate 512 0)
          (List.replicate 12 0) [1] none =
        some ([1] ++ List.replicate 16 7)) ∧
    (crypto_aead_encrypt_afternm aes256gcm (mkPrim aes256gcm false) [1] none
        (List.replicate 12 0) (List.replicate 512 0) =
      .ok ([1] ++ List.replicate 16 7) ∧
    encrypt_afternm_invokes aes256gcm (List.replicate 12 0)
      (List.replicate 512 0) = true ∧
    crypto_aead_encrypt_afternm aes256gcm (mkPrim aes256gcm false) [1] none
        (List.replicate 12 0) (List.replicate 512 0) ≠
      .error .UnsupportedAlgorithm) :=
  ⟨⟨by decide, by decide, rfl, rfl⟩,
    aes256gcm_encrypt_ignores_availability aes256gcm (mkPrim aes256gcm false)
      [1] none (List.replicate 12 0) (List.replicate 512 0)
      ([1] ++ List.replicate 16 7) (by decide) (by decide) rfl rfl⟩

end NodeSodium
